import Mathlib

set_option maxHeartbeats 1000000

/-!
Shallow embedding of the filetransfer repository sync engine
(pytest.py, uipytest.py, uigdrive.py, gdrivetest.py) together with
theorems settling the specification claims about change detection,
chunked copying, progress aggregation, result collection and the
terminal session phase.

Modelling conventions: machine files are records of integer-truncated
modification time (seconds plus a sub-second remainder that the code
discards via int truncation) and a byte list; the MD5 digest used by
file_hash is kept as an explicit function parameter md5, since hashlib
is an external library; file reads stream in order, so hashing the
concatenated stream equals hashing the whole content.  Fallible stat
and hash calls are modelled with Option where a claim is about failure
behaviour.  Percent computation int(cur / total * 100) is modelled as
Nat floor division, with Option none modelling the ZeroDivisionError
Python raises when total = 0.
-/

/-- One streamed copy chunk in bytes: CHUNK_SIZE = 1024 * 1024 in
uipytest.py line 8 and uigdrive.py line 14. -/
def CHUNK_SIZE : Nat := 1024 * 1024

/-- Large file threshold from uigdrive.py line 15: 10 * 1024 * 1024. -/
def LARGE_FILE_THRESHOLD : Nat := 10 * 1024 * 1024

/-- Metadata and content of one on-disk file.  mtimeSec is the whole
second part of st_mtime, mtimeSub a witness for the fractional part the
code discards when it evaluates int(st_mtime); content is the byte
list, whose length is the stat size. -/
structure FileMeta where
  mtimeSec : Nat
  mtimeSub : Nat
  content : List Nat
deriving DecidableEq

/-- stat size of a file: the length of its byte content. -/
def FileMeta.size (f : FileMeta) : Nat := f.content.length

/-- file_hash (pytest.py lines 7-12, uipytest.py lines 20-26,
uigdrive.py lines 19-24): read 64 KiB blocks and feed each to the MD5
state; the digest of the streamed blocks is the digest of the whole
content, so it is md5 applied to the content, with md5 the abstract
digest function. -/
def file_hash (md5 : List Nat → List Nat) (content : List Nat) : List Nat :=
  md5 content

/-- needs_update on the success path, shared by pytest.py lines 14-21
and uigdrive.py lines 64-78 (every stat and hash call succeeding):
absent destination, then size difference, then strictly greater
int-truncated source mtime, then digest difference. -/
def needs_update (md5 : List Nat → List Nat) (src : FileMeta) (dst : Option FileMeta) : Bool :=
  match dst with
  | none => true
  | some d =>
    if src.size ≠ d.size then true
    else if src.mtimeSec > d.mtimeSec then true
    else file_hash md5 src.content != file_hash md5 d.content

/-- Per-task result status, the first component of the tuples returned
by process_file and copy_file_with_progress. -/
inductive Status
  | updated
  | skipped
  | error
  | cancelled
deriving DecidableEq, BEq

/-- Progress event phase, the phase field of the dictionaries put on
progress_queue. -/
inductive Phase
  | downloading
  | statusMsg
  | done
  | error
  | cancelled
  | loginSuccess
  | loginError
deriving DecidableEq

/-- The percent expression int(cur / total * 100): Nat floor division
when total is positive, none modelling the ZeroDivisionError raised
when total = 0. -/
def pyPct (cur total : Nat) : Option Nat :=
  if total = 0 then none else some (cur * 100 / total)

/-- A cancellation signal that is never set. -/
def noStop : Nat → Bool := fun _ => false

/-- Outcome of one copy or classify step: final status, the value of
the shared current_size counter afterwards, the downloading percents
published, and the byte lengths added to the counter (one entry per
chunk or whole-file write). -/
structure CopyRun where
  status : Status
  cur : Nat
  percents : List Nat
  deltas : List Nat
deriving DecidableEq

/-- The sizes of the successive reads fsrc.read(CHUNK_SIZE) performs on
a file with the given number of remaining bytes: full chunks followed
by the remainder. -/
def readDeltas (n : Nat) : List Nat :=
  if h : n = 0 then []
  else
    let c := min CHUNK_SIZE n
    c :: readDeltas (n - c)
termination_by n
decreasing_by
  simp only [CHUNK_SIZE]
  omega

/-- The chunked while loop of copy_file_with_progress (uipytest.py
lines 52-67, uigdrive.py lines 88-100): check the stop event, read a
chunk (empty read ends the loop with status updated), write it, then
under the lock add its length to current_size and publish one
downloading percent; a zero total size makes the percent expression
raise, which the enclosing handler turns into an error result after
the chunk was already written and counted.  The Nat argument i indexes
successive observations of the stop event. -/
def copyLoop (stop : Nat → Bool) (totalsize remaining cur i : Nat) : CopyRun :=
  if stop i then ⟨.cancelled, cur, [], []⟩
  else if h : remaining = 0 then ⟨.updated, cur, [], []⟩
  else
    let c := min CHUNK_SIZE remaining
    match pyPct (cur + c) totalsize with
    | none => ⟨.error, cur + c, [], [c]⟩
    | some p =>
      let r := copyLoop stop totalsize (remaining - c) (cur + c) (i + 1)
      ⟨r.status, r.cur, p :: r.percents, c :: r.deltas⟩
termination_by remaining
decreasing_by
  simp only [CHUNK_SIZE]
  omega

/-- The result collection loop of sync_folder (uipytest.py lines
121-130, uigdrive.py lines 154-163): walk the futures in submission
order, append each result, and break out of the loop as soon as the
stop event is observed set after an append. -/
def collectResults : List Status → (Nat → Bool) → Nat → List Status
  | [], _, _ => []
  | r :: rs, stop, i => r :: (if stop i then [] else collectResults rs stop (i + 1))

namespace UiGdrive

/-- copy_file_with_progress of uigdrive.py lines 80-116: entry stop
check, then for a file of at least LARGE_FILE_THRESHOLD bytes the
chunked loop, otherwise one shutil.copy2 whole-file copy that adds the
full file size to current_size and publishes a single percent (the
percent expression raising on a zero total turns into an error result
after the copy and the counter increment already happened). -/
def copy_file_with_progress (totalsize fileSize cur : Nat) (stop : Nat → Bool) : CopyRun :=
  if stop 1 then ⟨.cancelled, cur, [], []⟩
  else if LARGE_FILE_THRESHOLD ≤ fileSize then
    copyLoop stop totalsize fileSize cur 2
  else
    match pyPct (cur + fileSize) totalsize with
    | none => ⟨.error, cur + fileSize, [], [fileSize]⟩
    | some p => ⟨.updated, cur + fileSize, [p], [fileSize]⟩

/-- process_file of uigdrive.py lines 118-132: entry stop check, then
classify with needs_update; a needed file goes to
copy_file_with_progress, otherwise a skipped result is returned after
publishing one downloading percent at the unchanged counter (100 when
totalsize is zero, guarding the division), adding nothing to the
counter. -/
def process_file (md5 : List Nat → List Nat) (totalsize cur : Nat)
    (src : FileMeta) (dst : Option FileMeta) (stop : Nat → Bool) : CopyRun :=
  if stop 0 then ⟨.cancelled, cur, [], []⟩
  else if needs_update md5 src dst then
    copy_file_with_progress totalsize src.size cur stop
  else
    ⟨.skipped, cur, [if totalsize = 0 then 100 else cur * 100 / totalsize], []⟩

/-- The per-task fold of sync_folder under no cancellation: each task
is processed against the shared counter in turn (the lock serialises
counter updates, so a sequential fold models any interleaving of the
per-chunk critical sections); returns the statuses in task order, the
final counter, and the concatenated published percents. -/
def runTasks (md5 : List Nat → List Nat) (totalsize : Nat) :
    Nat → List (FileMeta × Option FileMeta) → List Status × Nat × List Nat
  | cur, [] => ([], cur, [])
  | cur, t :: ts =>
    let r := process_file md5 totalsize cur t.1 t.2 noStop
    let rest := runTasks md5 totalsize r.cur ts
    (r.status :: rest.1, rest.2.1, r.percents ++ rest.2.2)

/-- totalsize computation of sync_folder (uigdrive.py lines 138-150):
sum the stat sizes of the enumerated tasks, then force the total to 1
when it is zero but the task list is not empty. -/
def folderTotal (tasks : List (FileMeta × Option FileMeta)) : Nat :=
  let s := (tasks.map fun t => t.1.size).sum
  if s = 0 ∧ tasks ≠ [] then 1 else s

/-- sync_folder of uigdrive.py lines 134-164 under no cancellation:
enumerate, compute the (possibly forced) total, and fold the tasks
from a zero counter. -/
def sync_folder (md5 : List Nat → List Nat) (tasks : List (FileMeta × Option FileMeta)) :
    List Status × Nat × List Nat :=
  runTasks md5 (folderTotal tasks) 0 tasks

/-- sync_file of uigdrive.py lines 166-175: the total is the single
source file stat size, with no forcing to 1 when that size is zero,
and process_file runs from a zero counter. -/
def sync_file (md5 : List Nat → List Nat) (src : FileMeta) (dst : Option FileMeta) : CopyRun :=
  process_file md5 src.size 0 src dst noStop

/-- Terminal phase resolution of LocalTransfer.run, uigdrive.py lines
189-195 (same shape in uipytest.py lines 167-173): the stop event is
tested first; only when it is clear are the collected results scanned
for an error. -/
def run (stopSet : Bool) (results : List Status) : Phase :=
  if stopSet then .cancelled
  else if results.any (fun r => r == Status.error) then .error
  else .done

/-- One stat or hash view of a file for the failure model: none means
the corresponding call raises. -/
structure StatView where
  sizeRes : Option Nat
  mtimeRes : Option Nat
  hashRes : Option (List Nat)
deriving DecidableEq

/-- The final digest comparison shared by the fallible needs_update
variants: a failing hash read on either side yields true. -/
def hashCheck (s d : StatView) : Bool :=
  match s.hashRes, d.hashRes with
  | some a, some b => a != b
  | _, _ => true

/-- needs_update of uigdrive.py lines 64-78 with fallible calls: the
stat block returns true on any exception, and the hash block returns
true on any exception. -/
def needs_update_io (dstExists : Bool) (s d : StatView) : Bool :=
  if !dstExists then true
  else
    match s.sizeRes, d.sizeRes with
    | some ss, some ds =>
      if ss ≠ ds then true
      else
        match s.mtimeRes, d.mtimeRes with
        | some sm, some dm =>
          if sm > dm then true
          else hashCheck s d
        | _, _ => true
    | _, _ => true

end UiGdrive

namespace UiPytest

/-- copy_file_with_progress of uipytest.py lines 44-76: entry stop
check, then the chunked loop for every file, with no size threshold. -/
def copy_file_with_progress (totalsize fileSize cur : Nat) (stop : Nat → Bool) : CopyRun :=
  if stop 1 then ⟨.cancelled, cur, [], []⟩
  else copyLoop stop totalsize fileSize cur 2

/-- needs_update of uipytest.py lines 28-42 with fallible calls: the
stat block swallows exceptions with pass and falls through to the hash
comparison; only the hash block returns true on exception. -/
def needs_update_io (dstExists : Bool) (s d : UiGdrive.StatView) : Bool :=
  if !dstExists then true
  else
    match s.sizeRes, d.sizeRes with
    | some ss, some ds =>
      if ss ≠ ds then true
      else
        match s.mtimeRes, d.mtimeRes with
        | some sm, some dm =>
          if sm > dm then true
          else UiGdrive.hashCheck s d
        | _, _ => UiGdrive.hashCheck s d
    | _, _ => UiGdrive.hashCheck s d

/-- Filesystem effect of process_file (uipytest.py lines 78-95) on one
task in a quiescent run: when needs_update holds the chunked writes
reassemble the full source content at the destination and
shutil.copystat copies the timestamps, returning updated with the file
size written; otherwise skipped with nothing written and the
destination untouched. -/
def runTask (md5 : List Nat → List Nat) (src : FileMeta) (dst : Option FileMeta) :
    Status × Option FileMeta × Nat :=
  if needs_update md5 src dst then
    (.updated, some ⟨src.mtimeSec, src.mtimeSub, src.content⟩, src.size)
  else
    (.skipped, dst, 0)

end UiPytest

namespace Pytest

/-- needs_update of pytest.py lines 14-21 with fallible calls: there is
no handler, so any failing stat or hash call propagates as an
exception, modelled as none. -/
def needs_update_io (dstExists : Bool) (s d : UiGdrive.StatView) : Option Bool :=
  if !dstExists then some true
  else do
    let ss ← s.sizeRes
    let ds ← d.sizeRes
    if ss ≠ ds then pure true
    else do
      let sm ← s.mtimeRes
      let dm ← d.mtimeRes
      if sm > dm then pure true
      else do
        let a ← s.hashRes
        let b ← d.hashRes
        pure (a != b)

end Pytest

namespace GDrive

/-- One remote Drive object as the engine sees it: title, size and MD5
digest from the folder listing (uigdrive.py lines 233-243). -/
structure RemoteFile where
  title : String
  size : Nat
  md5 : List Nat
deriving DecidableEq

/-- The remote_files dictionary lookup: the listing is folded into a
dict keyed by title, so a later entry with the same title wins. -/
def lookupRemote (rs : List RemoteFile) (t : String) : Option RemoteFile :=
  rs.reverse.find? (fun r => r.title == t)

/-- check_and_upload_file of uigdrive.py lines 259-294 for one local
file summarised by its title, size and digest: skip when a remote
entry of the same title has equal size and digest, otherwise create
and upload a brand-new remote object with that title, appending it to
the folder contents; nothing existing is modified or removed.  Returns
whether an upload happened and the new folder contents. -/
def check_and_upload (remote : List RemoteFile) (f : RemoteFile) : Bool × List RemoteFile :=
  match lookupRemote remote f.title with
  | some r =>
    if f.size = r.size ∧ f.md5 = r.md5 then (false, remote)
    else (true, remote ++ [f])
  | none => (true, remote ++ [f])

end GDrive

/-- Cumulative percents published for a list of chunk deltas starting
from counter value cur: one entry per chunk, computed at the counter
value reached after that chunk, as the locked block of the copy loop
does. -/
def cumPercents (total : Nat) : Nat → List Nat → List Nat
  | _, [] => []
  | cur, d :: ds => (cur + d) * 100 / total :: cumPercents total (cur + d) ds

/-- Characterisation of the chunked loop when the stop event never
fires and the total is positive: the copy completes as updated, the
counter advances by the whole remaining size, the deltas are the chunk
read sizes, and one percent is published per chunk. -/
theorem copyLoop_noStop (total : Nat) (ht : total ≠ 0) :
    ∀ n cur i, copyLoop noStop total n cur i =
      ⟨Status.updated, cur + n, cumPercents total cur (readDeltas n), readDeltas n⟩ := by
  intro n
  induction n using Nat.strong_induction_on with
  | _ n ih =>
    intro cur i
    rw [copyLoop]
    by_cases h0 : n = 0
    · subst h0
      simp [noStop, readDeltas, cumPercents]
    · have hc : 0 < min CHUNK_SIZE n := by
        simp only [CHUNK_SIZE]
        omega
      rw [readDeltas]
      simp only [noStop, Bool.false_eq_true, if_false, dif_neg h0, pyPct, if_neg ht,
        cumPercents]
      rw [ih (n - min CHUNK_SIZE n) (by omega) (cur + min CHUNK_SIZE n) (i + 1)]
      simp only [CopyRun.mk.injEq, true_and, and_true]
      omega

/-- The chunk read sizes of a file sum to its size. -/
theorem readDeltas_sum (n : Nat) : (readDeltas n).sum = n := by
  induction n using Nat.strong_induction_on with
  | _ n ih =>
    rw [readDeltas]
    by_cases h0 : n = 0
    · simp [h0]
    · have hc : 0 < min CHUNK_SIZE n := by
        simp only [CHUNK_SIZE]
        omega
      simp only [dif_neg h0, List.sum_cons]
      rw [ih (n - min CHUNK_SIZE n) (by omega)]
      omega

/-- Every chunk read is nonempty and at most CHUNK_SIZE bytes. -/
theorem readDeltas_mem (n : Nat) : ∀ d ∈ readDeltas n, 0 < d ∧ d ≤ CHUNK_SIZE := by
  induction n using Nat.strong_induction_on with
  | _ n ih =>
    rw [readDeltas]
    by_cases h0 : n = 0
    · simp [h0]
    · have hc : 0 < min CHUNK_SIZE n := by
        simp only [CHUNK_SIZE]
        omega
      simp only [dif_neg h0, List.mem_cons]
      rintro d (rfl | hd)
      · exact ⟨hc, Nat.min_le_left _ _⟩
      · exact ih (n - min CHUNK_SIZE n) (by omega) d hd

/-- A nonempty file produces at least one chunk read. -/
theorem readDeltas_ne_nil (n : Nat) (h0 : n ≠ 0) : readDeltas n ≠ [] := by
  rw [readDeltas]
  simp [h0]

/-- One percent is published per chunk delta. -/
theorem cumPercents_length (total : Nat) :
    ∀ ds cur, (cumPercents total cur ds).length = ds.length := by
  intro ds
  induction ds with
  | nil => intro cur; rfl
  | cons d ds ih => intro cur; simp [cumPercents, ih]

/-- The last percent published for a nonempty delta list is the one
computed at the final counter value. -/
theorem cumPercents_getLast (total : Nat) :
    ∀ ds cur, ds ≠ [] →
      (cumPercents total cur ds).getLast? = some ((cur + ds.sum) * 100 / total) := by
  intro ds
  induction ds with
  | nil => intro cur h; exact absurd rfl h
  | cons d ds ih =>
    intro cur _
    cases ds with
    | nil => simp [cumPercents]
    | cons d2 ds2 =>
      have h2 := ih (cur + d) (by simp)
      have harith : cur + d + (d2 + ds2.sum) = cur + (d + (d2 + ds2.sum)) := by omega
      simp only [cumPercents] at h2 ⊢
      rw [List.getLast?_cons_cons, h2]
      simp only [List.sum_cons, harith]

/-- A stop event observed at the head of a loop iteration cancels the
copy before any further chunk is read, written or counted. -/
theorem copyLoop_stop (stop : Nat → Bool) (total n cur i : Nat) (h : stop i = true) :
    copyLoop stop total n cur i = ⟨Status.cancelled, cur, [], []⟩ := by
  rw [copyLoop]
  simp [h]

/-- Whatever the stop signal does, the chunks actually written are a
leading segment of the full chunk sequence: the destination is left
truncated, never reordered or padded. -/
theorem copyLoop_deltas_front (stop : Nat → Bool) (total : Nat) :
    ∀ n cur i, (copyLoop stop total n cur i).deltas <+: readDeltas n := by
  intro n
  induction n using Nat.strong_induction_on with
  | _ n ih =>
    intro cur i
    rw [copyLoop]
    by_cases hs : stop i
    · simp only [hs, if_true]
      exact ⟨readDeltas n, rfl⟩
    · by_cases h0 : n = 0
      · simp only [hs, Bool.false_eq_true, if_false, dif_pos h0]
        exact ⟨readDeltas n, rfl⟩
      · have hc : 0 < min CHUNK_SIZE n := by
          simp only [CHUNK_SIZE]
          omega
        rw [readDeltas]
        simp only [hs, Bool.false_eq_true, if_false, dif_neg h0]
        by_cases htot : total = 0
        · simp only [pyPct, if_pos htot]
          exact ⟨readDeltas (n - min CHUNK_SIZE n), rfl⟩
        · simp only [pyPct, if_neg htot]
          obtain ⟨t, ht⟩ := ih (n - min CHUNK_SIZE n) (by omega) (cur + min CHUNK_SIZE n) (i + 1)
          exact ⟨t, by simp [ht]⟩

/-- An uncancelled uigdrive copy with a positive total always ends
updated, advances the counter by the file size, and publishes at least
one percent, the last one computed at the final counter value. -/
theorem gd_copy_updated (total n cur : Nat) (ht : total ≠ 0) :
    (UiGdrive.copy_file_with_progress total n cur noStop).status = Status.updated ∧
    (UiGdrive.copy_file_with_progress total n cur noStop).cur = cur + n ∧
    (UiGdrive.copy_file_with_progress total n cur noStop).percents ≠ [] ∧
    (UiGdrive.copy_file_with_progress total n cur noStop).percents.getLast? =
      some ((cur + n) * 100 / total) := by
  rw [UiGdrive.copy_file_with_progress]
  by_cases hl : LARGE_FILE_THRESHOLD ≤ n
  · have hn0 : n ≠ 0 := by
      simp only [LARGE_FILE_THRESHOLD] at hl
      omega
    rw [copyLoop_noStop total ht n cur 2]
    have hnil : readDeltas n ≠ [] := readDeltas_ne_nil n hn0
    have hlast := cumPercents_getLast total (readDeltas n) cur hnil
    rw [readDeltas_sum] at hlast
    have hlen : (cumPercents total cur (readDeltas n)).length = (readDeltas n).length :=
      cumPercents_length total (readDeltas n) cur
    refine ⟨by simp [noStop, hl], by simp [noStop, hl], ?_, by simp [noStop, hl, hlast]⟩
    simp only [noStop, Bool.false_eq_true, if_false, if_pos hl]
    intro hcon
    rw [hcon] at hlen
    simp at hlen
    exact hnil (List.eq_nil_of_length_eq_zero hlen.symm)
  · simp [noStop, hl, pyPct, ht]

/-- Folding all-needed tasks through the shared counter: every status
is updated, the counter advances by the total of the file sizes, and
the last published percent is computed at the final counter value. -/
theorem runTasks_all_updated (md5 : List Nat → List Nat) (total : Nat) (ht : total ≠ 0) :
    ∀ (tasks : List (FileMeta × Option FileMeta)) (cur : Nat),
      (∀ t ∈ tasks, needs_update md5 t.1 t.2 = true) →
      (UiGdrive.runTasks md5 total cur tasks).1 = tasks.map (fun _ => Status.updated) ∧
      (UiGdrive.runTasks md5 total cur tasks).2.1 =
        cur + (tasks.map fun t => t.1.size).sum ∧
      (tasks ≠ [] → (UiGdrive.runTasks md5 total cur tasks).2.2.getLast? =
        some ((cur + (tasks.map fun t => t.1.size).sum) * 100 / total)) := by
  intro tasks
  induction tasks with
  | nil =>
    intro cur _
    exact ⟨rfl, by simp [UiGdrive.runTasks], fun h => absurd rfl h⟩
  | cons t ts ih =>
    intro cur hall
    have htc : needs_update md5 t.1 t.2 = true := hall t (by simp)
    obtain ⟨hst, hcur, hpne, hplast⟩ := gd_copy_updated total t.1.size cur ht
    have hproc : UiGdrive.process_file md5 total cur t.1 t.2 noStop =
        UiGdrive.copy_file_with_progress total t.1.size cur noStop := by
      simp [UiGdrive.process_file, noStop, htc]
    obtain ⟨ih1, ih2, ih3⟩ :=
      ih (cur + t.1.size) (fun x hx => hall x (List.mem_cons_of_mem t hx))
    simp only [UiGdrive.runTasks, hproc, hst, hcur, List.map_cons, List.sum_cons]
    refine ⟨by rw [ih1], by rw [ih2]; omega, ?_⟩
    intro _
    by_cases hts : ts = []
    · subst hts
      simp only [UiGdrive.runTasks, List.append_nil]
      rw [hplast]
      simp
    · have ih3h := ih3 hts
      have hrne : (UiGdrive.runTasks md5 total (cur + t.1.size) ts).2.2 ≠ [] := by
        intro hcon
        rw [hcon] at ih3h
        simp at ih3h
      rw [List.getLast?_append_of_ne_nil _ hrne, ih3h]
      have harith : cur + t.1.size + (ts.map fun t => t.1.size).sum =
          cur + (t.1.size + (ts.map fun t => t.1.size).sum) := by omega
      rw [harith]

/-- C1: for every source and destination pair, needs_update decides by
four checks in increasing cost order, short-circuiting on the first
true: a missing destination yields true; otherwise differing sizes
yield true; otherwise a source mtime truncated to integer seconds
strictly greater than the destination one yields true; otherwise the
result is exactly the inequality of the streamed MD5 content digests
of the two files. -/
theorem needs_update_four_checks (md5 : List Nat → List Nat) (src : FileMeta) :
    needs_update md5 src none = true ∧
    ∀ d : FileMeta,
      (src.size ≠ d.size → needs_update md5 src (some d) = true) ∧
      (src.size = d.size → d.mtimeSec < src.mtimeSec →
        needs_update md5 src (some d) = true) ∧
      (src.size = d.size → src.mtimeSec ≤ d.mtimeSec →
        needs_update md5 src (some d) =
          (file_hash md5 src.content != file_hash md5 d.content)) := by
  refine ⟨rfl, fun d => ⟨fun hs => ?_, fun hs hm => ?_, fun hs hm => ?_⟩⟩
  · simp [needs_update, hs]
  · simp [needs_update, hs, hm]
  · simp [needs_update, hs, Nat.not_lt.mpr hm]

/-- C1 witness: concrete instances of the four checks, with the digest
function instantiated to the identity. -/
theorem needs_update_four_checks_witness :
    ((FileMeta.mk 1 0 [0]).size = (FileMeta.mk 1 0 [1]).size ∧
      (FileMeta.mk 1 0 [0]).mtimeSec ≤ (FileMeta.mk 1 0 [1]).mtimeSec ∧
      needs_update id ⟨1, 0, [0]⟩ (some ⟨1, 0, [1]⟩) =
        (file_hash id [0] != file_hash id [1])) ∧
    needs_update id ⟨1, 0, [0]⟩ none = true :=
  ⟨⟨rfl, le_refl _,
    ((needs_update_four_checks id ⟨1, 0, [0]⟩).2 ⟨1, 0, [1]⟩).2.2 rfl (le_refl _)⟩,
   (needs_update_four_checks id ⟨1, 0, [0]⟩).1⟩

/-- C2 counterexample: two tasks submitted and cancellation requested
from the start; the collection loop of sync_folder appends the first
result and then breaks, so the session ends with one collected result
out of two submitted, not two as the claim states. -/
theorem collect_cancel_drops_results :
    collectResults [Status.updated, Status.skipped] (fun _ => true) 0 =
      [Status.updated] ∧
    (fun _ : Nat => true) 0 = true ∧
    [Status.updated].length = 1 ∧
    [Status.updated, Status.skipped].length = 2 := by
  decide

/-- C2 amended: the collection loop keeps the submitted results in
submission order but breaks at the first post-append check that
observes the stop event set, so the final collection is always a
leading segment of the per-task results, and it contains all N of them
if and only if the stop event is clear at each of the checks after the
first N - 1 appends; the check after the final append no longer
affects completeness. -/
theorem collect_is_front_of_submitted (rs : List Status) (stop : Nat → Bool) (i : Nat) :
    collectResults rs stop i <+: rs ∧
    (collectResults rs stop i = rs ↔
      ∀ j, j + 1 < rs.length → stop (i + j) = false) := by
  induction rs generalizing i with
  | nil =>
    refine ⟨⟨[], rfl⟩, ?_⟩
    simp [collectResults]
  | cons r rs ih =>
    refine ⟨?_, ?_⟩
    · rw [collectResults]
      by_cases hs : stop i
      · simp only [hs, if_true]
        exact ⟨rs, rfl⟩
      · simp only [hs, Bool.false_eq_true, if_false]
        obtain ⟨t, htl⟩ := (ih (i + 1)).1
        exact ⟨t, by simp [htl]⟩
    · rw [collectResults]
      by_cases hs : stop i
      · simp only [hs, if_true]
        constructor
        · intro heq j hj
          have hrs : rs = [] := by
            injection heq with h1 h2
            exact h2.symm
          subst hrs
          simp at hj
        · intro hall
          by_cases hrs : rs = []
          · subst hrs; rfl
          · exfalso
            have hlen : 0 < rs.length := List.length_pos.mpr hrs
            have hcon := hall 0 (by simp only [List.length_cons]; omega)
            rw [Nat.add_zero, hs] at hcon
            simp at hcon
      · simp only [hs, Bool.false_eq_true, if_false]
        have hiff := (ih (i + 1)).2
        constructor
        · intro heq j hj
          have hrec : collectResults rs stop (i + 1) = rs := by
            injection heq with h1 h2
          cases j with
          | zero =>
            rw [Nat.add_zero]
            exact Bool.eq_false_iff.mpr hs
          | succ k =>
            have hk : k + 1 < rs.length := by
              simp only [List.length_cons] at hj
              omega
            have hres := hiff.mp hrec k hk
            have harr : i + (k + 1) = i + 1 + k := by omega
            rw [harr]
            exact hres
        · intro hall
          congr 1
          apply hiff.mpr
          intro j hj
          have hres := hall (j + 1) (by simp only [List.length_cons]; omega)
          have harr : i + (j + 1) = i + 1 + j := by omega
          rw [harr] at hres
          exact hres

/-- C2 witness: two tasks with the stop event observed set only at the
check after the final append still collect both results, the precise
boundary of the completeness condition. -/
theorem collect_is_front_of_submitted_witness :
    (fun k : Nat => k == 1) 1 = true ∧
    collectResults [Status.updated, Status.skipped] (fun k => k == 1) 0 =
      [Status.updated, Status.skipped] :=
  ⟨rfl, (collect_is_front_of_submitted [Status.updated, Status.skipped]
      (fun k => k == 1) 0).2.mpr (by
        intro j hj
        simp only [List.length_cons, List.length_nil] at hj
        have hj0 : j = 0 := by omega
        subst hj0
        rfl)⟩

/-- C3 counterexample: a run with an error result and the stop event
set publishes the cancelled phase, not the error phase the claim gives
precedence to. -/
theorem run_cancel_beats_error_cex :
    UiGdrive.run true [Status.error] = Phase.cancelled ∧
    Phase.cancelled ≠ Phase.error ∧
    ([Status.error].any fun r => r == Status.error) = true := by
  decide

/-- C3 amended: the terminal phase checks cancellation first: an
observed stop event yields Cancelled even when some task result is
Error; only with the stop event clear does any Error result yield
Error, and otherwise the phase is Done. -/
theorem run_phase_precedence (stopSet : Bool) (results : List Status) :
    (stopSet = true → UiGdrive.run stopSet results = Phase.cancelled) ∧
    (stopSet = false →
      ((results.any fun r => r == Status.error) = true →
        UiGdrive.run stopSet results = Phase.error) ∧
      ((results.any fun r => r == Status.error) = false →
        UiGdrive.run stopSet results = Phase.done)) := by
  refine ⟨fun h => by simp [UiGdrive.run, h], fun h => ⟨fun he => ?_, fun he => ?_⟩⟩
  · simp [UiGdrive.run, h, he]
  · simp [UiGdrive.run, h, he]

/-- C3 witness: the three phases at concrete inputs. -/
theorem run_phase_precedence_witness :
    (true = true ∧ UiGdrive.run true [Status.skipped] = Phase.cancelled) ∧
    (false = false ∧ ([Status.error].any fun r => r == Status.error) = true ∧
      UiGdrive.run false [Status.error] = Phase.error) ∧
    (([Status.skipped].any fun r => r == Status.error) = false ∧
      UiGdrive.run false [Status.skipped] = Phase.done) :=
  ⟨⟨rfl, (run_phase_precedence true [Status.skipped]).1 rfl⟩,
   ⟨rfl, by decide, ((run_phase_precedence false [Status.error]).2 rfl).1 (by decide)⟩,
   ⟨by decide, ((run_phase_precedence false [Status.skipped]).2 rfl).2 (by decide)⟩⟩

/-- C4 counterexample: a session of one 5-byte task whose destination
already matches finishes with no errors and no cancellation, all
results skipped; the skipped branch leaves the byte counter at 0, so
the sum of per-task contributions is 0, not totalBytes = 5, and the
final published percent is 0, not 100. -/
theorem skipped_task_zero_progress_cex :
    UiGdrive.sync_folder id [(⟨0, 0, [0, 0, 0, 0, 0]⟩, some ⟨0, 0, [0, 0, 0, 0, 0]⟩)] =
      ([Status.skipped], 0, [0]) ∧
    UiGdrive.folderTotal [(⟨0, 0, [0, 0, 0, 0, 0]⟩, some ⟨0, 0, [0, 0, 0, 0, 0]⟩)] = 5 ∧
    (0 : Nat) ≠ 5 ∧ (0 : Nat) ≠ 100 := by
  decide

/-- C4 amended: a skipped task publishes one downloading event at the
unchanged percent but adds nothing to bytesCompleted; the byte
contributions come only from updated tasks, each advancing by its file
size, so the sum equals totalBytes and the final published percent is
exactly 100 precisely for sessions in which every task is updated (and
the sizes sum to a nonzero total). -/
theorem all_updated_reaches_100 (md5 : List Nat → List Nat)
    (tasks : List (FileMeta × Option FileMeta)) (hne : tasks ≠ [])
    (hsum : (tasks.map fun t => t.1.size).sum ≠ 0)
    (hall : ∀ t ∈ tasks, needs_update md5 t.1 t.2 = true) :
    (UiGdrive.sync_folder md5 tasks).1 = tasks.map (fun _ => Status.updated) ∧
    (UiGdrive.sync_folder md5 tasks).2.1 = UiGdrive.folderTotal tasks ∧
    (UiGdrive.sync_folder md5 tasks).2.2.getLast? = some 100 ∧
    (∀ (total cur : Nat) (src : FileMeta) (dst : Option FileMeta),
      needs_update md5 src dst = false →
      UiGdrive.process_file md5 total cur src dst noStop =
        ⟨Status.skipped, cur, [if total = 0 then 100 else cur * 100 / total], []⟩) := by
  have htot : UiGdrive.folderTotal tasks = (tasks.map fun t => t.1.size).sum := by
    simp [UiGdrive.folderTotal, hsum]
  obtain ⟨h1, h2, h3⟩ := runTasks_all_updated md5 (UiGdrive.folderTotal tasks)
    (by rw [htot]; exact hsum) tasks 0 hall
  refine ⟨h1, ?_, ?_, ?_⟩
  · rw [UiGdrive.sync_folder, h2, htot]
    omega
  · rw [UiGdrive.sync_folder, h3 hne, htot]
    have hpos : 0 < (tasks.map fun t => t.1.size).sum := Nat.pos_of_ne_zero hsum
    rw [Nat.zero_add, Nat.mul_div_cancel_left 100 hpos]
  · intro total cur src dst hno
    simp [UiGdrive.process_file, noStop, hno]

/-- C4 witness: one fresh 1-byte task is updated and the run ends at
percent 100. -/
theorem all_updated_reaches_100_witness :
    ([((⟨5, 0, [7]⟩ : FileMeta), (none : Option FileMeta))] ≠ [] ∧
      (([((⟨5, 0, [7]⟩ : FileMeta), (none : Option FileMeta))].map
        fun t => t.1.size).sum ≠ 0) ∧
      (∀ t ∈ [((⟨5, 0, [7]⟩ : FileMeta), (none : Option FileMeta))],
        needs_update id t.1 t.2 = true)) ∧
    (UiGdrive.sync_folder id [(⟨5, 0, [7]⟩, none)]).2.2.getLast? = some 100 :=
  ⟨⟨by decide, by decide, by decide⟩,
   (all_updated_reaches_100 id [(⟨5, 0, [7]⟩, none)]
     (by decide) (by decide) (by decide)).2.2.1⟩

/-- C5 counterexample: in the uipytest variant a 2 MiB file, well
below the 10 MiB threshold, is still streamed in two 1 MiB chunks,
publishing two progress deltas instead of the single whole-file delta
the claim states for files below the threshold. -/
theorem small_file_chunked_uipytest_cex :
    (UiPytest.copy_file_with_progress (2 * CHUNK_SIZE) (2 * CHUNK_SIZE) 0 noStop).deltas =
      [CHUNK_SIZE, CHUNK_SIZE] ∧
    2 * CHUNK_SIZE < LARGE_FILE_THRESHOLD ∧
    [CHUNK_SIZE, CHUNK_SIZE].length ≠ 1 := by
  refine ⟨?_, by decide, by decide⟩
  have h := copyLoop_noStop (2 * CHUNK_SIZE) (by decide) (2 * CHUNK_SIZE) 0 2
  rw [UiPytest.copy_file_with_progress]
  simp only [noStop, Bool.false_eq_true, if_false, h]
  simp [readDeltas, CHUNK_SIZE]

/-- C5 amended: in the uigdrive variant a file of at least 10 MiB
streams in 1 MiB chunks, each nonempty chunk at most CHUNK_SIZE with
chunk sizes summing to the file size, publishing one downloading event
per chunk, the stop event checked at the head of every iteration and
cancelling before the next read, written chunks always forming a
leading segment of the full sequence; a file below the threshold is
one whole-file copy publishing a single delta equal to the full size.
The uipytest variant has no threshold and streams every file in
chunks. -/
theorem copy_chunking_threshold (total n cur : Nat) (ht : total ≠ 0) :
    (LARGE_FILE_THRESHOLD ≤ n →
      UiGdrive.copy_file_with_progress total n cur noStop =
        ⟨Status.updated, cur + n, cumPercents total cur (readDeltas n), readDeltas n⟩) ∧
    (n < LARGE_FILE_THRESHOLD →
      UiGdrive.copy_file_with_progress total n cur noStop =
        ⟨Status.updated, cur + n, [(cur + n) * 100 / total], [n]⟩) ∧
    (UiPytest.copy_file_with_progress total n cur noStop =
      ⟨Status.updated, cur + n, cumPercents total cur (readDeltas n), readDeltas n⟩) ∧
    ((cumPercents total cur (readDeltas n)).length = (readDeltas n).length) ∧
    (∀ d ∈ readDeltas n, 0 < d ∧ d ≤ CHUNK_SIZE) ∧
    ((readDeltas n).sum = n) ∧
    (∀ (stop : Nat → Bool) (i : Nat), stop i = true →
      copyLoop stop total n cur i = ⟨Status.cancelled, cur, [], []⟩) ∧
    (∀ (stop : Nat → Bool) (i : Nat),
      (copyLoop stop total n cur i).deltas <+: readDeltas n) := by
  refine ⟨?_, ?_, ?_, cumPercents_length total (readDeltas n) cur, readDeltas_mem n,
    readDeltas_sum n, fun stop i h => copyLoop_stop stop total n cur i h,
    fun stop i => copyLoop_deltas_front stop total n cur i⟩
  · intro hl
    simp [UiGdrive.copy_file_with_progress, noStop, hl, copyLoop_noStop total ht n cur 2]
  · intro hl
    simp [UiGdrive.copy_file_with_progress, noStop, Nat.not_le.mpr hl, pyPct, ht]
  · simp [UiPytest.copy_file_with_progress, noStop, copyLoop_noStop total ht n cur 2]

/-- C5 witness: the threshold file itself is chunked, a 5-byte file is
a single whole-file copy, and a set stop event cancels the loop. -/
theorem copy_chunking_threshold_witness :
    ((1 : Nat) ≠ 0 ∧ LARGE_FILE_THRESHOLD ≤ LARGE_FILE_THRESHOLD ∧
      UiGdrive.copy_file_with_progress 1 LARGE_FILE_THRESHOLD 0 noStop =
        ⟨Status.updated, 0 + LARGE_FILE_THRESHOLD,
          cumPercents 1 0 (readDeltas LARGE_FILE_THRESHOLD),
          readDeltas LARGE_FILE_THRESHOLD⟩) ∧
    ((5 : Nat) < LARGE_FILE_THRESHOLD ∧
      UiGdrive.copy_file_with_progress 5 5 0 noStop =
        ⟨Status.updated, 0 + 5, [(0 + 5) * 100 / 5], [5]⟩) ∧
    ((fun _ : Nat => true) 0 = true ∧
      copyLoop (fun _ => true) 5 5 0 0 = ⟨Status.cancelled, 0, [], []⟩) :=
  ⟨⟨by decide, le_refl _,
    (copy_chunking_threshold 1 LARGE_FILE_THRESHOLD 0 (by decide)).1 (le_refl _)⟩,
   ⟨by decide, (copy_chunking_threshold 5 5 0 (by decide)).2.1 (by decide)⟩,
   ⟨rfl, (copy_chunking_threshold 5 5 0 (by decide)).2.2.2.2.2.2.1 (fun _ => true) 0 rfl⟩⟩

/-- C6 counterexample: equal sizes, destination mtime strictly newer
than the source, contents (hence digests) different: needs_update is
true, so the destination is re-copied, contradicting the claim that it
never is. -/
theorem newer_dest_recopied_cex :
    (FileMeta.mk 0 0 [1]).size = (FileMeta.mk 5 0 [2]).size ∧
    (FileMeta.mk 0 0 [1]).mtimeSec < (FileMeta.mk 5 0 [2]).mtimeSec ∧
    file_hash id [1] ≠ file_hash id [2] ∧
    needs_update id ⟨0, 0, [1]⟩ (some ⟨5, 0, [2]⟩) = true := by
  decide

/-- C6 amended: the mtime check alone never triggers a copy when the
destination is newer, but the decision then falls through to the
digest comparison: for equal sizes and a newer destination,
needs_update equals the inequality of the content digests, so a newer
destination with different content is still re-copied and one with
equal size and digest is not. -/
theorem newer_dest_digest_decides (md5 : List Nat → List Nat) (src d : FileMeta)
    (hs : src.size = d.size) (hnewer : src.mtimeSec < d.mtimeSec) :
    needs_update md5 src (some d) =
      (file_hash md5 src.content != file_hash md5 d.content) := by
  simp [needs_update, hs, Nat.not_lt.mpr (Nat.le_of_lt hnewer)]

/-- C6 witness: a newer destination with equal content is not
re-copied. -/
theorem newer_dest_digest_decides_witness :
    ((FileMeta.mk 0 0 [1]).size = (FileMeta.mk 5 0 [1]).size ∧
      (FileMeta.mk 0 0 [1]).mtimeSec < (FileMeta.mk 5 0 [1]).mtimeSec) ∧
    needs_update id ⟨0, 0, [1]⟩ (some ⟨5, 0, [1]⟩) =
      (file_hash id [1] != file_hash id [1]) :=
  ⟨⟨rfl, by decide⟩,
   newer_dest_digest_decides id ⟨0, 0, [1]⟩ ⟨5, 0, [1]⟩ rfl (by decide)⟩

/-- C7 counterexample: in the uipytest variant a failing stat (size
read raises) is swallowed with pass; with both hashes succeeding and
equal, needs_update returns false, skipping the file, so an I/O
failure during the checks does not always yield true. -/
theorem stat_failure_can_skip_cex :
    (UiGdrive.StatView.mk none none (some [])).sizeRes = none ∧
    UiPytest.needs_update_io true ⟨none, none, some []⟩ ⟨some 0, none, some []⟩ = false := by
  decide

/-- C7 amended: failure handling differs by variant: in uigdrive any
failing stat or hash call makes needs_update true; in uipytest a
failing hash makes it true but a failing stat falls through to the
digest comparison, whose value (false on equal digests) becomes the
result; in the batch pytest variant there is no handler, and every
failing call the check actually performs — a size stat, an mtime stat
once the sizes were read equal, or a hash read once the mtime
comparison passed — propagates as an exception instead of returning
true. -/
theorem io_failure_handling_variants :
    (∀ s d : UiGdrive.StatView,
      s.sizeRes = none ∨ d.sizeRes = none ∨ s.mtimeRes = none ∨ d.mtimeRes = none ∨
        s.hashRes = none ∨ d.hashRes = none →
      UiGdrive.needs_update_io true s d = true) ∧
    (∀ s d : UiGdrive.StatView, s.hashRes = none ∨ d.hashRes = none →
      UiPytest.needs_update_io true s d = true) ∧
    (∀ s d : UiGdrive.StatView, s.sizeRes = none ∨ d.sizeRes = none →
      UiPytest.needs_update_io true s d = UiGdrive.hashCheck s d) ∧
    (∀ (s d : UiGdrive.StatView) (n : Nat), s.sizeRes = some n → d.sizeRes = some n →
      s.mtimeRes = none ∨ d.mtimeRes = none →
      UiPytest.needs_update_io true s d = UiGdrive.hashCheck s d) ∧
    (∀ s d : UiGdrive.StatView, s.sizeRes = none ∨ d.sizeRes = none →
      Pytest.needs_update_io true s d = none) ∧
    (∀ (s d : UiGdrive.StatView) (n : Nat), s.sizeRes = some n → d.sizeRes = some n →
      s.mtimeRes = none ∨ d.mtimeRes = none →
      Pytest.needs_update_io true s d = none) ∧
    (∀ (s d : UiGdrive.StatView) (n m k : Nat), s.sizeRes = some n → d.sizeRes = some n →
      s.mtimeRes = some m → d.mtimeRes = some k → m ≤ k →
      s.hashRes = none ∨ d.hashRes = none →
      Pytest.needs_update_io true s d = none) := by
  refine ⟨?_, ?_, ?_, ?_, ?_, ?_, ?_⟩
  · rintro ⟨ssz, smt, shs⟩ ⟨dsz, dmt, dhs⟩ h
    cases ssz <;> cases dsz <;> cases smt <;> cases dmt <;> cases shs <;> cases dhs <;>
      simp_all [UiGdrive.needs_update_io, UiGdrive.hashCheck]
  · rintro ⟨ssz, smt, shs⟩ ⟨dsz, dmt, dhs⟩ h
    cases ssz <;> cases dsz <;> cases smt <;> cases dmt <;> cases shs <;> cases dhs <;>
      simp_all [UiPytest.needs_update_io, UiGdrive.hashCheck]
  · rintro ⟨ssz, smt, shs⟩ ⟨dsz, dmt, dhs⟩ h
    cases ssz <;> cases dsz <;>
      simp_all [UiPytest.needs_update_io, UiGdrive.hashCheck]
  · rintro ⟨ssz, smt, shs⟩ ⟨dsz, dmt, dhs⟩ n h1 h2 h3
    cases smt <;> cases dmt <;>
      simp_all [UiPytest.needs_update_io, UiGdrive.hashCheck]
  · rintro ⟨ssz, smt, shs⟩ ⟨dsz, dmt, dhs⟩ h
    cases ssz <;> cases dsz <;>
      simp_all [Pytest.needs_update_io]
  · rintro ⟨ssz, smt, shs⟩ ⟨dsz, dmt, dhs⟩ n h1 h2 h3
    cases smt <;> cases dmt <;>
      simp_all [Pytest.needs_update_io]
  · rintro ⟨ssz, smt, shs⟩ ⟨dsz, dmt, dhs⟩ n m k h1 h2 h3 h4 h5 h6
    cases shs <;> cases dhs <;>
      simp_all [Pytest.needs_update_io, Nat.not_lt.mpr h5]

/-- C7 witness: concrete failing calls across the three variants: a
failing source size stat in each, then in the pytest variant a failing
mtime stat after equal sizes and a failing hash read after a passing
mtime comparison, each propagating as an exception. -/
theorem io_failure_handling_variants_witness :
    (UiGdrive.StatView.mk none none none).sizeRes = none ∧
    UiGdrive.needs_update_io true ⟨none, none, none⟩ ⟨some 1, some 1, some []⟩ = true ∧
    UiPytest.needs_update_io true ⟨none, none, none⟩ ⟨some 1, some 1, some []⟩ =
      UiGdrive.hashCheck ⟨none, none, none⟩ ⟨some 1, some 1, some []⟩ ∧
    Pytest.needs_update_io true ⟨none, none, none⟩ ⟨some 1, some 1, some []⟩ = none ∧
    Pytest.needs_update_io true ⟨some 1, none, some []⟩ ⟨some 1, some 0, some []⟩ = none ∧
    Pytest.needs_update_io true ⟨some 1, some 0, none⟩ ⟨some 1, some 0, some []⟩ = none :=
  ⟨rfl,
   io_failure_handling_variants.1 _ _ (Or.inl rfl),
   io_failure_handling_variants.2.2.1 _ _ (Or.inl rfl),
   io_failure_handling_variants.2.2.2.2.1 _ _ (Or.inl rfl),
   io_failure_handling_variants.2.2.2.2.2.1 _ _ 1 rfl rfl (Or.inl rfl),
   io_failure_handling_variants.2.2.2.2.2.2 _ _ 1 0 0 rfl rfl rfl rfl
     (Nat.le_refl 0) (Or.inl rfl)⟩

/-- C8: running the same sync twice with no intervening changes makes
every second-run task skipped with zero bytes written and the
destination untouched, whatever the digest function; and a fresh
zero-byte file is updated on the first run (hence skipped on the
second by the first part). -/
theorem second_sync_all_skipped (md5 : List Nat → List Nat) :
    (∀ (src : FileMeta) (dst : Option FileMeta),
      (UiPytest.runTask md5 src (UiPytest.runTask md5 src dst).2.1).1 = Status.skipped ∧
      (UiPytest.runTask md5 src (UiPytest.runTask md5 src dst).2.1).2.2 = 0 ∧
      (UiPytest.runTask md5 src (UiPytest.runTask md5 src dst).2.1).2.1 =
        (UiPytest.runTask md5 src dst).2.1) ∧
    (∀ t u : Nat, (UiPytest.runTask md5 ⟨t, u, []⟩ none).1 = Status.updated) := by
  have hkey : ∀ src : FileMeta,
      needs_update md5 src (some ⟨src.mtimeSec, src.mtimeSub, src.content⟩) = false := by
    intro src
    simp [needs_update, FileMeta.size, file_hash]
  refine ⟨fun src dst => ?_, fun t u => ?_⟩
  · by_cases hu : needs_update md5 src dst
    · simp [UiPytest.runTask, hu, hkey src]
    · simp [UiPytest.runTask, hu]
  · simp [UiPytest.runTask, needs_update]

/-- C9: evaluation at the failing input: syncing a single zero-byte
source file in the uigdrive variant sets totalsize to the stat size 0
with no forcing to 1, and the small-file copy branch then evaluates
int(current_size / totalsize * 100) with a zero divisor; the
ZeroDivisionError is caught and surfaces as an error result, so the
percent computation does divide by zero on this reachable input; the
folder path would have forced the same task set to total 1. -/
theorem zero_byte_sync_file_division_by_zero :
    UiGdrive.sync_file id ⟨0, 0, []⟩ none = ⟨Status.error, 0, [], [0]⟩ ∧
    pyPct 0 0 = none ∧
    (FileMeta.mk 0 0 []).size = 0 ∧
    UiGdrive.folderTotal [(⟨0, 0, []⟩, none)] = 1 := by
  decide

/-- C10: when a local file has the title of an existing remote entry
but a different size or digest, the engine performs an upload that
appends a brand-new remote object with the same title: the result set
is the old folder contents plus the new object, the old entry is still
present unmodified, nothing is deleted, and the number of entries
carrying that title grows by one. -/
theorem duplicate_upload_on_changed_file (remote : List GDrive.RemoteFile)
    (f r : GDrive.RemoteFile)
    (hfound : GDrive.lookupRemote remote f.title = some r)
    (hdiff : f.size ≠ r.size ∨ f.md5 ≠ r.md5) :
    GDrive.check_and_upload remote f = (true, remote ++ [f]) ∧
    r ∈ remote ∧
    (∀ x ∈ remote, x ∈ (GDrive.check_and_upload remote f).2) ∧
    ((GDrive.check_and_upload remote f).2.countP fun x => x.title == f.title) =
      (remote.countP fun x => x.title == f.title) + 1 := by
  have hne : ¬(f.size = r.size ∧ f.md5 = r.md5) := by
    rcases hdiff with h | h
    · exact fun hc => h hc.1
    · exact fun hc => h hc.2
  have heq : GDrive.check_and_upload remote f = (true, remote ++ [f]) := by
    rw [GDrive.check_and_upload, hfound]
    simp [hne]
  have hmem : r ∈ remote := by
    have hrev := List.mem_of_find?_eq_some hfound
    exact List.mem_reverse.mp hrev
  refine ⟨heq, hmem, fun x hx => ?_, ?_⟩
  · rw [heq]
    exact List.mem_append_left _ hx
  · rw [heq]
    simp [List.countP_append, List.countP_cons]

/-- C10 witness: a one-entry remote folder and a changed local file of
the same title end as two remote entries with that title. -/
theorem duplicate_upload_on_changed_file_witness :
    (GDrive.lookupRemote [⟨"a", 1, [0]⟩] (GDrive.RemoteFile.mk "a" 2 [0]).title =
        some ⟨"a", 1, [0]⟩ ∧
      ((GDrive.RemoteFile.mk "a" 2 [0]).size ≠ (GDrive.RemoteFile.mk "a" 1 [0]).size ∨
        (GDrive.RemoteFile.mk "a" 2 [0]).md5 ≠ (GDrive.RemoteFile.mk "a" 1 [0]).md5)) ∧
    GDrive.check_and_upload [⟨"a", 1, [0]⟩] ⟨"a", 2, [0]⟩ =
      (true, [⟨"a", 1, [0]⟩] ++ [⟨"a", 2, [0]⟩]) :=
  ⟨⟨by decide, Or.inl (by decide)⟩,
   (duplicate_upload_on_changed_file [⟨"a", 1, [0]⟩] ⟨"a", 2, [0]⟩ ⟨"a", 1, [0]⟩
     (by decide) (Or.inl (by decide))).1⟩
